import Mathlib

/-!
Verification development for the speckle-server repository fragment.

The development shallowly embeds the code under scrutiny:

* `packages/server/modules/core/graph/resolvers/models.ts` — the GraphQL
  Model resolvers (`Model.displayName`, `Model.previewUrl`), the
  `ModelMutations` resolvers (`create`, `update`, `delete`) and the
  `Subscription.projectModelsUpdated` filter.  JavaScript strings are
  modelled as `String` (or, where character-level reasoning over
  `String.prototype.split` is needed, as `List Char`).

* `modules/auth` — the HTTP auth endpoints (`/auth/local/register`,
  `/auth/local/login`, `/auth/token`, `/auth/logout`).  Their
  implementation is not part of the sources; only the integration test
  suite `modules/auth/tests/auth.spec.js` is.  Those endpoints are
  therefore modelled from the specification (see the doc comments
  starting with `Modelled from the spec:`), as a deterministic state
  machine over an explicit server state.
-/

namespace Speckle

/-! ### JavaScript `String.prototype.split` on a single-character separator

`name.split('/')` in JavaScript splits the character sequence at every
occurrence of `'/'`, keeping empty fragments (`""` splits to `[""]`,
`"a/"` splits to `["a", ""]`).  We model the string as a `List Char`. -/

/-- Embedding of the JavaScript `String.prototype.split` with a
single-character separator, on strings modelled as `List Char`. -/
def splitChar (sep : Char) : List Char → List (List Char)
  | [] => [[]]
  | c :: rest =>
    match splitChar sep rest with
    | [] => [[]]
    | h :: t => if c = sep then [] :: h :: t else (c :: h) :: t

/-- Embedding of `Model.displayName` from
`packages/server/modules/core/graph/resolvers/models.ts`:
`last(parent.name.split('/'))` (lodash `last` of the split fragments). -/
def displayName (name : List Char) : List Char :=
  (splitChar '/' name).getLastD []

/-! ### `Model.previewUrl` -/

/-- A commit row, as read through the `branches.getLatestCommit` loader. -/
structure CommitRecord where
  id : String
deriving DecidableEq, Repr

/-- Embedding of JavaScript `new URL(path, base).toString()` for an origin
with no trailing slash or path and an absolute path: the resolved URL is the
origin followed by the path. -/
def urlToString (base path : String) : String := base ++ path

/-- Embedding of `Model.previewUrl` from
`packages/server/modules/core/graph/resolvers/models.ts`: builds
`/preview/${streamId}/commits/${latestCommit?.id || ''}` and returns the
resolved URL when a latest commit exists, `null` otherwise. -/
def previewUrl (origin streamId : String) (latestCommit : Option CommitRecord) :
    Option String :=
  let path := "/preview/" ++ streamId ++ "/commits/" ++
    (match latestCommit with
     | some c => c.id
     | none => "")
  match latestCommit with
  | some _ => some (urlToString origin path)
  | none => none

/-! ### `ModelMutations` resolvers and the `projectModelsUpdated` subscription

The mutating resolvers from
`packages/server/modules/core/graph/resolvers/models.ts` each run
`authorizeResolver(ctx.userId, args.input.projectId, Roles.Stream.Contributor)`
and then call the corresponding service function.  `authorizeResolver` and
the service functions live outside the given sources, so they are
parameters of the embedding; each resolver is embedded as a function that
also returns the sequence of calls it performs, in order. -/

/-- Stream roles from `@speckle/shared` (`Roles.Stream`). -/
inductive StreamRole
  | owner
  | contributor
  | reviewer
deriving DecidableEq, Repr

/-- Authorization failure raised by `authorizeResolver`. -/
structure AuthError where
  msg : String
deriving DecidableEq, Repr

/-- The type of `authorizeResolver`: given the requesting user id, the
resource (project) id and the required role, it either succeeds or throws. -/
def AuthFn : Type := Option String → String → StreamRole → Except AuthError Unit

/-- The service functions a `ModelMutations` resolver can call. -/
inductive ServiceFn
  | createBranchAndNotify
  | updateBranchAndNotify
  | deleteBranchAndNotify
deriving DecidableEq, Repr

/-- An observable call performed by a resolver, in program order. -/
inductive Effect
  | authCheck (userId : Option String) (resourceId : String) (role : StreamRole)
  | serviceCall (fn : ServiceFn)
deriving DecidableEq, Repr

/-- GraphQL request context (the fields the resolvers read). -/
structure ResolverCtx where
  userId : Option String
deriving DecidableEq, Repr

/-- The part of a `ModelMutations` input the resolvers read directly: all
three inputs carry a `projectId`. -/
structure MutationInput where
  projectId : String
deriving DecidableEq, Repr

/-- Embedding of `ModelMutations.create`: awaits
`authorizeResolver(ctx.userId, args.input.projectId, Roles.Stream.Contributor)`
(aborting on a thrown error) and then calls `createBranchAndNotify`. -/
def ModelMutations.create (auth : AuthFn) (input : MutationInput)
    (ctx : ResolverCtx) : List Effect × Except AuthError Unit :=
  let check := Effect.authCheck ctx.userId input.projectId StreamRole.contributor
  match auth ctx.userId input.projectId StreamRole.contributor with
  | Except.error e => ([check], Except.error e)
  | Except.ok _ =>
    ([check, Effect.serviceCall ServiceFn.createBranchAndNotify], Except.ok ())

/-- Embedding of `ModelMutations.update`: same shape as `create`, calling
`updateBranchAndNotify`. -/
def ModelMutations.update (auth : AuthFn) (input : MutationInput)
    (ctx : ResolverCtx) : List Effect × Except AuthError Unit :=
  let check := Effect.authCheck ctx.userId input.projectId StreamRole.contributor
  match auth ctx.userId input.projectId StreamRole.contributor with
  | Except.error e => ([check], Except.error e)
  | Except.ok _ =>
    ([check, Effect.serviceCall ServiceFn.updateBranchAndNotify], Except.ok ())

/-- Embedding of `ModelMutations.delete`: same shape as `create`, calling
`deleteBranchAndNotify`. -/
def ModelMutations.delete (auth : AuthFn) (input : MutationInput)
    (ctx : ResolverCtx) : List Effect × Except AuthError Unit :=
  let check := Effect.authCheck ctx.userId input.projectId StreamRole.contributor
  match auth ctx.userId input.projectId StreamRole.contributor with
  | Except.error e => ([check], Except.error e)
  | Except.ok _ =>
    ([check, Effect.serviceCall ServiceFn.deleteBranchAndNotify], Except.ok ())

/-- Payload of a published `projectModelsUpdated` event. -/
structure ModelsUpdatedPayload where
  projectId : String
  updatedModelId : String
deriving DecidableEq, Repr

/-- Subscriber arguments of `projectModelsUpdated`: the subscribed project
id and an optional model-id allow-list. -/
structure ModelsUpdatedArgs where
  id : String
  modelIds : Option (List String)
deriving DecidableEq, Repr

/-- Embedding of the `Subscription.projectModelsUpdated` filter callback:
rejects events of other projects, re-checks Reviewer authorization
(propagating a thrown error), accepts when the allow-list is absent or
empty, and otherwise tests membership of the updated model's id. -/
def projectModelsUpdatedFilter (auth : AuthFn) (payload : ModelsUpdatedPayload)
    (args : ModelsUpdatedArgs) (ctx : ResolverCtx) : Except AuthError Bool :=
  if payload.projectId ≠ args.id then Except.ok false
  else
    match auth ctx.userId args.id StreamRole.reviewer with
    | Except.error e => Except.error e
    | Except.ok _ =>
      match args.modelIds with
      | none => Except.ok true
      | some ids =>
        if ids.isEmpty then Except.ok true
        else Except.ok (ids.contains payload.updatedModelId)

/-- An `authorizeResolver` that always throws, used as a concrete instance. -/
def denyAll : AuthFn := fun _ _ _ => Except.error ⟨"forbidden"⟩

end Speckle

namespace SpeckleAuth

/-! ### The auth subsystem, modelled from the specification

The implementation of the `/auth` endpoints is not part of the given
sources; only the integration test suite
`modules/auth/tests/auth.spec.js` is.  The definitions below are therefore
modelled from the specification's description of the auth subsystem (§3,
§4.1, §6, §8): access codes are single-use, bound to the issuing app and
to the challenge supplied at issuance; token pairs are bound to an app;
refresh rotates a pair; logout destroys a pair. -/

/-- A registered OAuth-like client application (id/secret pair). -/
structure App where
  id : String
  secret : String
deriving DecidableEq, Repr

/-- A pending access code: bound to the app it was issued for, the
challenge supplied at issuance, and the authenticated user. -/
structure AccessCode where
  code : String
  appId : String
  challenge : String
  userEmail : String
deriving DecidableEq, Repr

/-- An issued access-token / refresh-token pair, bound to an app and a
user. -/
structure TokenPair where
  token : String
  refreshToken : String
  appId : String
  userEmail : String
deriving DecidableEq, Repr

/-- A registered user (local credentials). -/
structure UserRec where
  email : String
  password : String
deriving DecidableEq, Repr

/-- The server-side auth state: registered users and apps, pending access
codes, live token pairs, and a counter used to mint fresh identifiers. -/
structure ServerState where
  users : List UserRec
  apps : List App
  accessCodes : List AccessCode
  tokens : List TokenPair
  nonce : Nat
deriving DecidableEq, Repr

/-- An HTTP response as observed by the tests: status code, redirect
location, and the token pair carried by a successful exchange. -/
structure Response where
  status : Nat
  location : Option String
  token : Option String
  refreshToken : Option String
deriving DecidableEq, Repr

/-- A response carrying only a status code. -/
def emptyResp (s : Nat) : Response := ⟨s, none, none, none⟩

/-- Minting of a fresh access-code string from the state counter. -/
def freshCode (n : Nat) : String := "code_" ++ toString n

/-- Minting of a fresh access-token string from the state counter. -/
def freshToken (n : Nat) : String := "token_" ++ toString n

/-- Minting of a fresh refresh-token string from the state counter. -/
def freshRefreshToken (n : Nat) : String := "refresh_" ++ toString n

/-- Body of a `POST /auth/local/register` request; `password` is optional
because malformed bodies omit it. -/
structure RegisterBody where
  email : String
  name : String
  password : Option String
deriving DecidableEq, Repr

/-- Modelled from the spec: the `POST /auth/local/register` endpoint
(implementation absent from the sources).  Registration without a password
fails with 400 and registers nothing; otherwise the user is created and the
request is redirected (302) with a single-use access code bound to the
requesting app and the `challenge` query parameter. -/
def register (st : ServerState) (appId challenge : String) (body : RegisterBody) :
    Response × ServerState :=
  match body.password with
  | none => (emptyResp 400, st)
  | some pw =>
    let code := freshCode st.nonce
    (⟨302, some ("?access_code=" ++ code), none, none⟩,
     { st with
        users := ⟨body.email, pw⟩ :: st.users,
        accessCodes := ⟨code, appId, challenge, body.email⟩ :: st.accessCodes,
        nonce := st.nonce + 1 })

/-- Modelled from the spec: the `POST /auth/local/login` endpoint
(implementation absent from the sources).  A wrong password (or an unknown
email) fails with 401 and issues nothing; a correct password redirects
(302) with a single-use access code bound to the requesting app and the
`challenge` query parameter. -/
def login (st : ServerState) (appId challenge email password : String) :
    Response × ServerState :=
  match st.users.find? (fun u => u.email == email) with
  | none => (emptyResp 401, st)
  | some u =>
    if u.password == password then
      let code := freshCode st.nonce
      (⟨302, some ("?access_code=" ++ code), none, none⟩,
       { st with
          accessCodes := ⟨code, appId, challenge, email⟩ :: st.accessCodes,
          nonce := st.nonce + 1 })
    else (emptyResp 401, st)

/-- Body of a `POST /auth/token` request; every field is optional because
the tests send partial bodies. -/
structure TokenRequest where
  appId : Option String
  appSecret : Option String
  accessCode : Option String
  refreshToken : Option String
  challenge : Option String
deriving DecidableEq, Repr

/-- Modelled from the spec: the `POST /auth/token` endpoint (implementation
absent from the sources).  With an `accessCode`, a token pair is issued
(200) only when the app credentials match the code's issuing app and the
challenge matches the one supplied at issuance; the code is consumed.  With
a `refreshToken`, the pair is rotated (200) only when the app id/secret
pair matches the app the token is scoped to.  Every other input answers
401 and changes nothing. -/
def tokenExchange (st : ServerState) (req : TokenRequest) : Response × ServerState :=
  match req.accessCode with
  | some ac =>
    match req.appId, req.appSecret, req.challenge with
    | some appId, some appSecret, some challenge =>
      match st.accessCodes.find? (fun c => c.code == ac) with
      | none => (emptyResp 401, st)
      | some code =>
        match st.apps.find? (fun a => a.id == appId) with
        | none => (emptyResp 401, st)
        | some app =>
          if app.secret == appSecret && (code.appId == appId && code.challenge == challenge) then
            let pair : TokenPair :=
              ⟨freshToken st.nonce, freshRefreshToken st.nonce, appId, code.userEmail⟩
            (⟨200, none, some pair.token, some pair.refreshToken⟩,
             { st with
                accessCodes := st.accessCodes.filter (fun c => c.code != ac),
                tokens := pair :: st.tokens,
                nonce := st.nonce + 1 })
          else (emptyResp 401, st)
    | _, _, _ => (emptyResp 401, st)
  | none =>
    match req.refreshToken with
    | none => (emptyResp 401, st)
    | some rt =>
      match req.appId, req.appSecret with
      | some appId, some appSecret =>
        match st.tokens.find? (fun t => t.refreshToken == rt) with
        | none => (emptyResp 401, st)
        | some pair =>
          match st.apps.find? (fun a => a.id == appId) with
          | none => (emptyResp 401, st)
          | some app =>
            if pair.appId == appId && app.secret == appSecret then
              let newPair : TokenPair :=
                ⟨freshToken st.nonce, freshRefreshToken st.nonce, appId, pair.userEmail⟩
              (⟨200, none, some newPair.token, some newPair.refreshToken⟩,
               { st with
                  tokens := newPair :: st.tokens.filter (fun t => t.refreshToken != rt),
                  nonce := st.nonce + 1 })
            else (emptyResp 401, st)
      | _, _ => (emptyResp 401, st)

/-- Body of a `POST /auth/logout` request. -/
structure LogoutBody where
  token : Option String
  refreshToken : Option String
deriving DecidableEq, Repr

/-- Modelled from the spec: the `POST /auth/logout` endpoint (implementation
absent from the sources).  A body without the expected `token` field is
malformed and answers 400 without touching any token; otherwise the token
pair carrying the given access token is destroyed (which invalidates its
paired refresh token too) and the endpoint answers 200. -/
def logout (st : ServerState) (body : LogoutBody) : Response × ServerState :=
  match body.token with
  | none => (emptyResp 400, st)
  | some tk =>
    (emptyResp 200, { st with tokens := st.tokens.filter (fun p => p.token != tk) })

/-- A concrete server state mirroring the test fixtures: one registered
user, the `sdm` and `spklwebapp` apps, one pending access code and one live
token pair. -/
def demoState : ServerState :=
  ⟨[⟨"spam@speckle.systems", "roll saving throws"⟩],
   [⟨"sdm", "sdm"⟩, ⟨"spklwebapp", "spklwebapp"⟩],
   [⟨"ac1", "sdm", "random", "spam@speckle.systems"⟩],
   [⟨"tk1", "rt1", "sdm", "spam@speckle.systems"⟩],
   5⟩

end SpeckleAuth

namespace Speckle

theorem splitChar_ne_nil (sep : Char) (cs : List Char) : splitChar sep cs ≠ [] := by
  cases cs with
  | nil => simp [splitChar]
  | cons c rest =>
    simp only [splitChar]
    cases h : splitChar sep rest with
    | nil => simp
    | cons h t =>
      by_cases hc : c = sep <;> simp [hc]

theorem splitChar_of_not_mem (sep : Char) (cs : List Char) (h : sep ∉ cs) :
    splitChar sep cs = [cs] := by
  induction cs with
  | nil => rfl
  | cons c rest ih =>
    have hc : c ≠ sep := fun he => h (he ▸ List.mem_cons_self c rest)
    have hr : sep ∉ rest := fun hm => h (List.mem_cons_of_mem c hm)
    simp only [splitChar, ih hr]
    simp [hc]

theorem splitChar_length_ge_two (sep : Char) (cs : List Char) (h : sep ∈ cs) :
    2 ≤ (splitChar sep cs).length := by
  induction cs with
  | nil => cases h
  | cons c rest ih =>
    simp only [splitChar]
    cases hr : splitChar sep rest with
    | nil => exact absurd hr (splitChar_ne_nil sep rest)
    | cons h0 t0 =>
      by_cases hc : c = sep
      · simp [hc]
      · have hm : sep ∈ rest := by
          rcases List.mem_cons.mp h with he | hm
          · exact absurd he.symm hc
          · exact hm
        have := ih hm
        rw [hr] at this
        simpa [hc] using this

theorem getLastD_of_ne_nil {α : Type} (l : List α) (h : l ≠ []) (d d' : α) :
    l.getLastD d = l.getLastD d' := by
  cases l with
  | nil => exact absurd rfl h
  | cons x xs => rw [List.getLastD_cons, List.getLastD_cons]

/-- Claim C9 body, proved by induction on the character list: the result of
`displayName` is the fragment after the last separator. -/
theorem displayName_split (name : List Char) :
    (('/' : Char) ∉ name → displayName name = name) ∧
    (('/' : Char) ∈ name →
      ('/' : Char) ∉ displayName name ∧
      ∃ p : List Char, name = p ++ '/' :: displayName name) := by
  induction name with
  | nil =>
    refine ⟨fun _ => rfl, fun h => absurd h (List.not_mem_nil _)⟩
  | cons c rest ih =>
    constructor
    · intro h
      unfold displayName
      rw [splitChar_of_not_mem '/' (c :: rest) h]
      rfl
    · intro h
      by_cases hr : ('/' : Char) ∈ rest
      · -- the separator occurs in the tail: the display name of `c :: rest`
        -- equals the display name of `rest`
        have hlen := splitChar_length_ge_two '/' rest hr
        have key : displayName (c :: rest) = displayName rest := by
          unfold displayName
          simp only [splitChar]
          cases hs : splitChar '/' rest with
          | nil => exact absurd hs (splitChar_ne_nil '/' rest)
          | cons h0 t0 =>
            have ht0 : t0 ≠ [] := by
              rw [hs] at hlen
              cases t0 with
              | nil => simp at hlen
              | cons _ _ => simp
            by_cases hc : c = '/'
            · simp [hc]
            · simp only [hc, if_false]
              rw [List.getLastD_cons, List.getLastD_cons]
              exact getLastD_of_ne_nil t0 ht0 _ _
        rcases (ih.2 hr) with ⟨hno, p, hp⟩
        refine ⟨?_, c :: p, ?_⟩
        · rw [key]; exact hno
        · rw [key]
          simpa using hp
      · -- the separator does not occur in the tail, so `c` must be it
        have hc : c = '/' := by
          rcases List.mem_cons.mp h with he | hm
          · exact he.symm
          · exact absurd hm hr
        have key : displayName (c :: rest) = rest := by
          unfold displayName
          simp only [splitChar, splitChar_of_not_mem '/' rest hr, hc, if_pos rfl]
          rfl
        refine ⟨?_, [], ?_⟩
        · rw [key]; exact hr
        · rw [key, hc]
          rfl

/-- Claim C9: `Model.displayName` returns the substring of the model's name
after the last `/` separator, and the name unchanged when it contains no
`/`.  The fragment after the last separator is characterised as a suffix
that contains no separator and is preceded by one. -/
theorem model_displayName_after_last_slash (name : List Char) :
    (('/' : Char) ∉ name → displayName name = name) ∧
    (('/' : Char) ∈ name →
      ('/' : Char) ∉ displayName name ∧
      ∃ p : List Char, name = p ++ '/' :: displayName name) :=
  displayName_split name

/-- Witness for C9: on the concrete name `ab/cd/ef` the display name `ef`
contains no slash and is the suffix after the last slash. -/
theorem model_displayName_after_last_slash_witness :
    ('/' : Char) ∉ displayName ['a', 'b', '/', 'c', 'd', '/', 'e', 'f'] ∧
    ∃ p : List Char,
      ['a', 'b', '/', 'c', 'd', '/', 'e', 'f'] =
        p ++ '/' :: displayName ['a', 'b', '/', 'c', 'd', '/', 'e', 'f'] :=
  (model_displayName_after_last_slash _).2 (by decide)

/-- Claim C10: `Model.previewUrl` returns `null` exactly when the model has
no latest commit, and otherwise a URL built from the server origin, the
model's `streamId` and the latest commit's id. -/
theorem model_previewUrl_null_iff_no_commit (origin streamId : String)
    (latestCommit : Option CommitRecord) :
    (previewUrl origin streamId latestCommit = none ↔ latestCommit = none) ∧
    (∀ c : CommitRecord, latestCommit = some c →
      previewUrl origin streamId latestCommit =
        some (origin ++ ("/preview/" ++ streamId ++ ("/commits/" ++ c.id)))) := by
  constructor
  · cases latestCommit <;> simp [previewUrl]
  · intro c hc
    subst hc
    simp [previewUrl, urlToString, String.append_assoc]

/-- Witness for C10: with origin `https://x`, stream `s1` and latest commit
`c1`, the preview URL is that of commit `c1`. -/
theorem model_previewUrl_null_iff_no_commit_witness :
    previewUrl ("https://x") "s1" (some ⟨"c1"⟩) =
      some ("https://x" ++ ("/preview/" ++ "s1" ++ ("/commits/" ++ "c1"))) :=
  (model_previewUrl_null_iff_no_commit ("https://x") "s1" (some ⟨"c1"⟩)).2 ⟨"c1"⟩ rfl

/-- Claim C1: every `ModelMutations` resolver performs the Contributor
authorization check (with the requesting user's id and the input's
`projectId`) as its first call, and when that check throws, the mutating
service function is never called. -/
theorem modelMutations_authorize_before_mutate (auth : AuthFn)
    (input : MutationInput) (ctx : ResolverCtx) :
    ((ModelMutations.create auth input ctx).1.head? =
        some (Effect.authCheck ctx.userId input.projectId StreamRole.contributor) ∧
      (∀ e, auth ctx.userId input.projectId StreamRole.contributor = Except.error e →
        ∀ fn, Effect.serviceCall fn ∉ (ModelMutations.create auth input ctx).1)) ∧
    ((ModelMutations.update auth input ctx).1.head? =
        some (Effect.authCheck ctx.userId input.projectId StreamRole.contributor) ∧
      (∀ e, auth ctx.userId input.projectId StreamRole.contributor = Except.error e →
        ∀ fn, Effect.serviceCall fn ∉ (ModelMutations.update auth input ctx).1)) ∧
    ((ModelMutations.delete auth input ctx).1.head? =
        some (Effect.authCheck ctx.userId input.projectId StreamRole.contributor) ∧
      (∀ e, auth ctx.userId input.projectId StreamRole.contributor = Except.error e →
        ∀ fn, Effect.serviceCall fn ∉ (ModelMutations.delete auth input ctx).1)) := by
  cases h : auth ctx.userId input.projectId StreamRole.contributor with
  | error e =>
    refine ⟨⟨?_, ?_⟩, ⟨?_, ?_⟩, ⟨?_, ?_⟩⟩ <;>
      simp [ModelMutations.create, ModelMutations.update, ModelMutations.delete, h]
  | ok u =>
    refine ⟨⟨?_, ?_⟩, ⟨?_, ?_⟩, ⟨?_, ?_⟩⟩ <;>
      simp [ModelMutations.create, ModelMutations.update, ModelMutations.delete, h]

/-- Witness for C1: under an always-denying authorization check, the create
resolver's first call is the authorization check and no service call occurs. -/
theorem modelMutations_authorize_before_mutate_witness :
    (ModelMutations.create denyAll ⟨"p1"⟩ ⟨some ("u1")⟩).1.head? =
      some (Effect.authCheck (some ("u1")) "p1" StreamRole.contributor) ∧
    Effect.serviceCall ServiceFn.createBranchAndNotify ∉
      (ModelMutations.create denyAll ⟨"p1"⟩ ⟨some ("u1")⟩).1 := by
  have h := modelMutations_authorize_before_mutate denyAll ⟨"p1"⟩ ⟨some ("u1")⟩
  exact ⟨h.1.1, h.1.2 ⟨"forbidden"⟩ rfl ServiceFn.createBranchAndNotify⟩

/-- Claim C4: the `projectModelsUpdated` subscription filter delivers an
event exactly when the payload's project id equals the subscriber's `id`
argument, the Reviewer authorization re-check succeeds, and the allow-list
is absent, empty, or contains the updated model's id; events of a different
project are rejected (not delivered). -/
theorem projectModelsUpdated_filter_delivers_iff (auth : AuthFn)
    (payload : ModelsUpdatedPayload) (args : ModelsUpdatedArgs)
    (ctx : ResolverCtx) :
    (projectModelsUpdatedFilter auth payload args ctx = Except.ok true ↔
      payload.projectId = args.id ∧
      auth ctx.userId args.id StreamRole.reviewer = Except.ok () ∧
      (args.modelIds = none ∨ args.modelIds = some [] ∨
        ∃ ids, args.modelIds = some ids ∧ payload.updatedModelId ∈ ids)) ∧
    (payload.projectId ≠ args.id →
      projectModelsUpdatedFilter auth payload args ctx = Except.ok false) := by
  constructor
  · by_cases hp : payload.projectId = args.id
    · cases ha : auth ctx.userId args.id StreamRole.reviewer with
      | error e => simp [projectModelsUpdatedFilter, hp, ha]
      | ok u =>
        cases u
        cases hm : args.modelIds with
        | none => simp [projectModelsUpdatedFilter, hp, ha, hm]
        | some ids =>
          by_cases he : ids.isEmpty
          · have hids : ids = [] := List.isEmpty_iff.mp he
            simp [projectModelsUpdatedFilter, hp, ha, hm, he, hids]
          · have hids : ids ≠ [] := fun hn => he (by simp [hn])
            simp [projectModelsUpdatedFilter, hp, ha, hm, he, hids]
    · simp [projectModelsUpdatedFilter, hp]
  · intro hne
    simp [projectModelsUpdatedFilter, hne]

/-- Witness for C4: an event for project `p2` delivered to a subscriber of
project `p1` is rejected. -/
theorem projectModelsUpdated_filter_delivers_iff_witness :
    projectModelsUpdatedFilter denyAll ⟨"p2", "m1"⟩ ⟨"p1", none⟩ ⟨some ("u1")⟩ =
      Except.ok false :=
  (projectModelsUpdated_filter_delivers_iff denyAll ⟨"p2", "m1"⟩ ⟨"p1", none⟩
    ⟨some ("u1")⟩).2 (by decide)

end Speckle

namespace SpeckleAuth

/-- Lookup by a key that is unique across the list finds exactly the member
carrying that key. -/
theorem find?_beq_eq_of_mem {α β : Type} [BEq β] [LawfulBEq β] (f : α → β)
    (l : List α) (hn : (l.map f).Nodup) (x : α) (hx : x ∈ l) :
    l.find? (fun y => f y == f x) = some x := by
  have hs : (l.find? (fun y => f y == f x)).isSome := by
    rw [List.find?_isSome]
    exact ⟨x, hx, by simp⟩
  obtain ⟨y, hy⟩ := Option.isSome_iff_exists.mp hs
  have hmem := List.mem_of_find?_eq_some hy
  have hbeq := List.find?_some hy
  have hfy : f y = f x := by simpa using hbeq
  rw [hy, List.inj_on_of_nodup_map hn hmem hx hfy]

/-- Every outcome of `tokenExchange` is either a 200 response carrying a
token pair, or the unauthorized response with the state untouched. -/
theorem tokenExchange_shape (st : ServerState) (req : TokenRequest) :
    ((tokenExchange st req).1.status = 200 ∧
      (tokenExchange st req).1.token.isSome ∧
      (tokenExchange st req).1.refreshToken.isSome) ∨
    ((tokenExchange st req).1 = emptyResp 401 ∧ (tokenExchange st req).2 = st) := by
  unfold tokenExchange
  repeat' split
  all_goals simp [emptyResp]

/-- Characterisation of the successful access-code grant: with all fields
present, the exchange answers 200 exactly when a pending code carries the
requested code string, was issued to the requested app with the requested
challenge, and the app's registered secret is the requested one. -/
theorem codeGrant_200_iff (st : ServerState)
    (appId appSecret ac challenge : String) (rRt : Option String)
    (hcodes : (st.accessCodes.map AccessCode.code).Nodup)
    (happs : (st.apps.map App.id).Nodup) :
    (tokenExchange st ⟨some appId, some appSecret, some ac, rRt, some challenge⟩).1.status = 200 ↔
      ∃ code ∈ st.accessCodes, code.code = ac ∧ appId = code.appId ∧
        challenge = code.challenge ∧
        ∃ app ∈ st.apps, app.id = code.appId ∧ appSecret = app.secret := by
  cases hf : st.accessCodes.find? (fun c => c.code == ac) with
  | none =>
    simp only [tokenExchange, hf]
    constructor
    · intro h
      simp [emptyResp] at h
    · rintro ⟨code, hm, hcode, -⟩
      have := List.find?_eq_none.mp hf code hm
      simp [hcode] at this
  | some code =>
    have hcmem := List.mem_of_find?_eq_some hf
    have hcc : code.code = ac := by simpa using List.find?_some hf
    cases hg : st.apps.find? (fun a => a.id == appId) with
    | none =>
      simp only [tokenExchange, hf, hg]
      constructor
      · intro h
        simp [emptyResp] at h
      · rintro ⟨code2, hm2, hcode2, hid2, -, app, hma, hia, -⟩
        have := List.find?_eq_none.mp hg app hma
        rw [hia, ← hid2] at this
        simp at this
    | some app =>
      have hamem := List.mem_of_find?_eq_some hg
      have hai : app.id = appId := by simpa using List.find?_some hg
      by_cases hcond :
          (app.secret == appSecret && (code.appId == appId && code.challenge == challenge)) = true
      · have hconds := hcond
        rw [Bool.and_eq_true, Bool.and_eq_true] at hconds
        obtain ⟨hs, hia2, hch⟩ := hconds
        have hs' : app.secret = appSecret := by simpa using hs
        have hia2' : code.appId = appId := by simpa using hia2
        have hch' : code.challenge = challenge := by simpa using hch
        simp only [tokenExchange, hf, hg, hcond, if_true]
        constructor
        · intro _
          exact ⟨code, hcmem, hcc, hia2'.symm, hch'.symm,
            app, hamem, by rw [hai, hia2'], hs'.symm⟩
        · intro _
          trivial
      · simp only [tokenExchange, hf, hg, hcond, if_false]
        constructor
        · intro h
          simp [emptyResp] at h
        · rintro ⟨code2, hm2, hcode2, hid2, hch2, app2, hma2, hia2, hsa2⟩
          have hc2 : code2 = code :=
            List.inj_on_of_nodup_map hcodes hm2 hcmem (by rw [hcode2, hcc])
          subst hc2
          have ha2 : app2 = app := by
            refine List.inj_on_of_nodup_map happs hma2 hamem ?_
            rw [hia2, hai, hid2]
          subst ha2
          exact absurd (by simp [hsa2.symm, hid2.symm, hch2.symm]) hcond

/-- Claim C2: a `POST /auth/token` request carrying an access code answers
200 with a token pair exactly when the supplied app id, app secret and
challenge match the pending code's issuing app (with its registered secret)
and issuance challenge; in every other case — wrong challenge, wrong
secret, different app, or missing fields — it answers 401, issues nothing
and leaves the state unchanged. -/
theorem auth_token_code_grant (st : ServerState) (ac : String)
    (rAppId rSecret rRt rCh : Option String)
    (hcodes : (st.accessCodes.map AccessCode.code).Nodup)
    (happs : (st.apps.map App.id).Nodup) :
    ((tokenExchange st ⟨rAppId, rSecret, some ac, rRt, rCh⟩).1.status = 200 ↔
      ∃ code ∈ st.accessCodes, code.code = ac ∧ rAppId = some code.appId ∧
        rCh = some code.challenge ∧
        ∃ app ∈ st.apps, app.id = code.appId ∧ rSecret = some app.secret) ∧
    ((tokenExchange st ⟨rAppId, rSecret, some ac, rRt, rCh⟩).1.status = 200 →
      (tokenExchange st ⟨rAppId, rSecret, some ac, rRt, rCh⟩).1.token.isSome ∧
      (tokenExchange st ⟨rAppId, rSecret, some ac, rRt, rCh⟩).1.refreshToken.isSome) ∧
    ((tokenExchange st ⟨rAppId, rSecret, some ac, rRt, rCh⟩).1.status ≠ 200 →
      (tokenExchange st ⟨rAppId, rSecret, some ac, rRt, rCh⟩).1 = emptyResp 401 ∧
      (tokenExchange st ⟨rAppId, rSecret, some ac, rRt, rCh⟩).2 = st) := by
  refine ⟨?_, ?_, ?_⟩
  · cases rAppId with
    | none =>
      constructor
      · intro h
        simp [tokenExchange, emptyResp] at h
      · rintro ⟨code, -, -, hid, -⟩
        exact Option.noConfusion hid
    | some appId =>
      cases rSecret with
      | none =>
        constructor
        · intro h
          simp [tokenExchange, emptyResp] at h
        · rintro ⟨code, -, -, -, -, app, -, -, hsec⟩
          exact Option.noConfusion hsec
      | some appSecret =>
        cases rCh with
        | none =>
          constructor
          · intro h
            simp [tokenExchange, emptyResp] at h
          · rintro ⟨code, -, -, -, hch, -⟩
            exact Option.noConfusion hch
        | some challenge =>
          rw [codeGrant_200_iff st appId appSecret ac challenge rRt hcodes happs]
          constructor
          · rintro ⟨code, hm, hc, hid, hch, app, hma, hia, hsec⟩
            exact ⟨code, hm, hc, by rw [hid], by rw [hch], app, hma, hia, by rw [hsec]⟩
          · rintro ⟨code, hm, hc, hid, hch, app, hma, hia, hsec⟩
            exact ⟨code, hm, hc, Option.some.inj hid, Option.some.inj hch,
              app, hma, hia, Option.some.inj hsec⟩
  · intro h200
    rcases tokenExchange_shape st ⟨rAppId, rSecret, some ac, rRt, rCh⟩ with
      ⟨-, ht, hr⟩ | ⟨hresp, -⟩
    · exact ⟨ht, hr⟩
    · rw [hresp] at h200
      simp [emptyResp] at h200
  · intro hne
    rcases tokenExchange_shape st ⟨rAppId, rSecret, some ac, rRt, rCh⟩ with
      ⟨h200, -, -⟩ | ⟨hresp, hst⟩
    · exact absurd h200 hne
    · exact ⟨hresp, hst⟩

/-- Witness for C2: in the demo state, exchanging the pending code `ac1`
with the issuing app `sdm`, its secret and the issuance challenge `random`
answers 200. -/
theorem auth_token_code_grant_witness :
    (tokenExchange demoState
      ⟨some ("sdm"), some ("sdm"), some ("ac1"), none, some ("random")⟩).1.status = 200 :=
  (auth_token_code_grant demoState ("ac1") (some ("sdm")) (some ("sdm")) none
      (some ("random")) (by decide) (by decide)).1.mpr
    ⟨⟨"ac1", "sdm", "random", "spam@speckle.systems"⟩, by decide, rfl, rfl, rfl,
      ⟨"sdm", "sdm"⟩, by decide, rfl, rfl⟩

/-- Characterisation of the successful refresh grant: with all fields
present, the exchange answers 200 exactly when a live pair carries the
requested refresh token, is scoped to the requested app, and the app's
registered secret is the requested one. -/
theorem refreshGrant_200_iff (st : ServerState) (appId appSecret rt : String)
    (rCh : Option String)
    (htoks : (st.tokens.map TokenPair.refreshToken).Nodup)
    (happs : (st.apps.map App.id).Nodup) :
    (tokenExchange st ⟨some appId, some appSecret, none, some rt, rCh⟩).1.status = 200 ↔
      ∃ pair ∈ st.tokens, pair.refreshToken = rt ∧ pair.appId = appId ∧
        ∃ app ∈ st.apps, app.id = appId ∧ app.secret = appSecret := by
  cases hf : st.tokens.find? (fun t => t.refreshToken == rt) with
  | none =>
    simp only [tokenExchange, hf]
    constructor
    · intro h
      simp [emptyResp] at h
    · rintro ⟨pair, hm, hrt, -⟩
      have := List.find?_eq_none.mp hf pair hm
      simp [hrt] at this
  | some pair =>
    have hpmem := List.mem_of_find?_eq_some hf
    have hprt : pair.refreshToken = rt := by simpa using List.find?_some hf
    cases hg : st.apps.find? (fun a => a.id == appId) with
    | none =>
      simp only [tokenExchange, hf, hg]
      constructor
      · intro h
        simp [emptyResp] at h
      · rintro ⟨pair2, -, -, -, app, hma, hia, -⟩
        have := List.find?_eq_none.mp hg app hma
        simp [hia] at this
    | some app =>
      have hamem := List.mem_of_find?_eq_some hg
      have hai : app.id = appId := by simpa using List.find?_some hg
      by_cases hcond : (pair.appId == appId && app.secret == appSecret) = true
      · have hconds := hcond
        rw [Bool.and_eq_true] at hconds
        obtain ⟨hpa, hs⟩ := hconds
        have hpa' : pair.appId = appId := by simpa using hpa
        have hs' : app.secret = appSecret := by simpa using hs
        simp only [tokenExchange, hf, hg, hcond, if_true]
        constructor
        · intro _
          exact ⟨pair, hpmem, hprt, hpa', app, hamem, hai, hs'⟩
        · intro _
          trivial
      · simp only [tokenExchange, hf, hg, hcond, if_false]
        constructor
        · intro h
          simp [emptyResp] at h
        · rintro ⟨pair2, hm2, hrt2, hpa2, app2, hma2, hia2, hsa2⟩
          have hp2 : pair2 = pair :=
            List.inj_on_of_nodup_map htoks hm2 hpmem (by rw [hrt2, hprt])
          subst hp2
          have ha2 : app2 = app := by
            refine List.inj_on_of_nodup_map happs hma2 hamem ?_
            rw [hia2, hai]
          subst ha2
          exact absurd (by simp [hpa2, hsa2]) hcond

/-- Claim C3: a `POST /auth/token` request carrying a refresh token answers
200 with a fresh token pair exactly when the supplied app id and secret
match the app the refresh token is scoped to (with its registered secret);
with a wrong secret or a different app — or missing fields — it answers
401, issues nothing and leaves the state unchanged. -/
theorem auth_token_refresh_grant (st : ServerState) (rt : String)
    (rAppId rSecret rCh : Option String)
    (htoks : (st.tokens.map TokenPair.refreshToken).Nodup)
    (happs : (st.apps.map App.id).Nodup) :
    ((tokenExchange st ⟨rAppId, rSecret, none, some rt, rCh⟩).1.status = 200 ↔
      ∃ pair ∈ st.tokens, pair.refreshToken = rt ∧ rAppId = some pair.appId ∧
        ∃ app ∈ st.apps, app.id = pair.appId ∧ rSecret = some app.secret) ∧
    ((tokenExchange st ⟨rAppId, rSecret, none, some rt, rCh⟩).1.status = 200 →
      (tokenExchange st ⟨rAppId, rSecret, none, some rt, rCh⟩).1.token.isSome ∧
      (tokenExchange st ⟨rAppId, rSecret, none, some rt, rCh⟩).1.refreshToken.isSome) ∧
    ((tokenExchange st ⟨rAppId, rSecret, none, some rt, rCh⟩).1.status ≠ 200 →
      (tokenExchange st ⟨rAppId, rSecret, none, some rt, rCh⟩).1 = emptyResp 401 ∧
      (tokenExchange st ⟨rAppId, rSecret, none, some rt, rCh⟩).2 = st) := by
  refine ⟨?_, ?_, ?_⟩
  · cases rAppId with
    | none =>
      constructor
      · intro h
        simp [tokenExchange, emptyResp] at h
      · rintro ⟨pair, -, -, hid, -⟩
        exact Option.noConfusion hid
    | some appId =>
      cases rSecret with
      | none =>
        constructor
        · intro h
          simp [tokenExchange, emptyResp] at h
        · rintro ⟨pair, -, -, -, app, -, -, hsec⟩
          exact Option.noConfusion hsec
      | some appSecret =>
        rw [refreshGrant_200_iff st appId appSecret rt rCh htoks happs]
        constructor
        · rintro ⟨pair, hm, hrt, hpa, app, hma, hia, hsec⟩
          exact ⟨pair, hm, hrt, by rw [hpa], app, hma, by rw [hia, hpa],
            by rw [hsec]⟩
        · rintro ⟨pair, hm, hrt, hpa, app, hma, hia, hsec⟩
          have hpa' := Option.some.inj hpa
          exact ⟨pair, hm, hrt, hpa'.symm, app, hma, by rw [hia, hpa'],
            (Option.some.inj hsec).symm⟩
  · intro h200
    rcases tokenExchange_shape st ⟨rAppId, rSecret, none, some rt, rCh⟩ with
      ⟨-, ht, hr⟩ | ⟨hresp, -⟩
    · exact ⟨ht, hr⟩
    · rw [hresp] at h200
      simp [emptyResp] at h200
  · intro hne
    rcases tokenExchange_shape st ⟨rAppId, rSecret, none, some rt, rCh⟩ with
      ⟨h200, -, -⟩ | ⟨hresp, hst⟩
    · exact absurd h200 hne
    · exact ⟨hresp, hst⟩

/-- Witness for C3: in the demo state, refreshing with the live refresh
token `rt1` and the scoped app `sdm` with its secret answers 200. -/
theorem auth_token_refresh_grant_witness :
    (tokenExchange demoState
      ⟨some ("sdm"), some ("sdm"), none, some ("rt1"), none⟩).1.status = 200 :=
  (auth_token_refresh_grant demoState ("rt1") (some ("sdm")) (some ("sdm")) none
      (by decide) (by decide)).1.mpr
    ⟨⟨"tk1", "rt1", "sdm", "spam@speckle.systems"⟩, by decide, rfl, rfl,
      ⟨"sdm", "sdm"⟩, by decide, rfl, rfl⟩

/-- Claim C5: a `POST /auth/logout` request without the expected `token`
field answers 400 and invalidates nothing; a request carrying a live
token/refresh-token pair answers 200 and removes the pair, so no live pair
carries that access token (nor, being a pair, its refresh token) any more. -/
theorem auth_logout (st : ServerState) (body : LogoutBody) :
    (body.token = none →
      (logout st body).1.status = 400 ∧ (logout st body).2 = st) ∧
    (∀ pair ∈ st.tokens, body.token = some pair.token →
      body.refreshToken = some pair.refreshToken →
      (logout st body).1.status = 200 ∧
      ∀ p ∈ (logout st body).2.tokens, p.token ≠ pair.token) := by
  constructor
  · intro h
    simp [logout, h, emptyResp]
  · intro pair hm htk hrt
    constructor
    · simp [logout, htk, emptyResp]
    · intro p hp
      simp only [logout, htk] at hp
      rw [List.mem_filter] at hp
      simpa using hp.2

/-- Witness for C5: logging out with the demo state's live pair answers 200
and leaves no pair carrying its access token. -/
theorem auth_logout_witness :
    (logout demoState ⟨some ("tk1"), some ("rt1")⟩).1.status = 200 ∧
    ∀ p ∈ (logout demoState ⟨some ("tk1"), some ("rt1")⟩).2.tokens,
      p.token ≠ (⟨"tk1", "rt1", "sdm", "spam@speckle.systems"⟩ : TokenPair).token :=
  (auth_logout demoState ⟨some ("tk1"), some ("rt1")⟩).2
    ⟨"tk1", "rt1", "sdm", "spam@speckle.systems"⟩ (by decide) rfl rfl

/-- Claim C7: a `POST /auth/local/register` request whose body omits the
password answers 400 and changes nothing (no user is registered). -/
theorem auth_register_missing_password (st : ServerState)
    (appId challenge : String) (body : RegisterBody)
    (h : body.password = none) :
    (register st appId challenge body).1.status = 400 ∧
    (register st appId challenge body).2 = st := by
  simp [register, h, emptyResp]

/-- Witness for C7: registering in the demo state without a password
answers 400 and leaves the state unchanged. -/
theorem auth_register_missing_password_witness :
    (register demoState ("sdm") "test" ⟨"a@b", "ab", none⟩).1.status = 400 ∧
    (register demoState ("sdm") "test" ⟨"a@b", "ab", none⟩).2 = demoState :=
  auth_register_missing_password demoState ("sdm") "test" ⟨"a@b", "ab", none⟩ rfl

/-- Claim C8: a `POST /auth/local/login` request with an existing user's
email but a different password answers 401, issues no access code (no
redirect location) and changes nothing. -/
theorem auth_login_wrong_password (st : ServerState)
    (appId challenge email password : String) (u : UserRec)
    (hu : u ∈ st.users) (hue : u.email = email)
    (husers : (st.users.map UserRec.email).Nodup)
    (hwrong : u.password ≠ password) :
    (login st appId challenge email password).1.status = 401 ∧
    (login st appId challenge email password).1.location = none ∧
    (login st appId challenge email password).2 = st := by
  have hfind : st.users.find? (fun v => v.email == email) = some u := by
    have := find?_beq_eq_of_mem UserRec.email st.users husers u hu
    simpa [hue] using this
  have hne : (u.password == password) = false := by
    simpa using hwrong
  simp [login, hfind, hne, emptyResp]

/-- Witness for C8: logging the demo user in with a wrong password answers
401, issues no redirect and leaves the state unchanged. -/
theorem auth_login_wrong_password_witness :
    (login demoState ("sdm") "random" "spam@speckle.systems" "wrong").1.status = 401 ∧
    (login demoState ("sdm") "random" "spam@speckle.systems" "wrong").1.location = none ∧
    (login demoState ("sdm") "random" "spam@speckle.systems" "wrong").2 = demoState :=
  auth_login_wrong_password demoState ("sdm") "random" "spam@speckle.systems"
    "wrong" ⟨"spam@speckle.systems", "roll saving throws"⟩ (by decide) rfl
    (by decide) (by decide)

/-- Exchanging the access code just pushed at the head of the pending list,
with its issuing app's credentials and its issuance challenge, succeeds;
exchanging it a second time fails, the code being consumed. -/
theorem tokenExchange_fresh_code (st : ServerState) (app : App)
    (ac : AccessCode) (rest : List AccessCode)
    (hcs : st.accessCodes = ac :: rest)
    (hmem : app ∈ st.apps) (happs : (st.apps.map App.id).Nodup)
    (hof : ac.appId = app.id) :
    (tokenExchange st
      ⟨some app.id, some app.secret, some ac.code, none, some ac.challenge⟩).1.status = 200 ∧
    (tokenExchange
      (tokenExchange st
        ⟨some app.id, some app.secret, some ac.code, none, some ac.challenge⟩).2
      ⟨some app.id, some app.secret, some ac.code, none, some ac.challenge⟩).1.status = 401 := by
  have hfind1 : st.accessCodes.find? (fun c => c.code == ac.code) = some ac := by
    rw [hcs]
    exact List.find?_cons_of_pos _ (by simp)
  have hfindapp : st.apps.find? (fun a => a.id == app.id) = some app :=
    find?_beq_eq_of_mem App.id st.apps happs app hmem
  have hcond :
      (app.secret == app.secret && (ac.appId == app.id && ac.challenge == ac.challenge)) = true := by
    simp [hof]
  have hres : tokenExchange st
      ⟨some app.id, some app.secret, some ac.code, none, some ac.challenge⟩ =
      (⟨200, none, some (freshToken st.nonce), some (freshRefreshToken st.nonce)⟩,
       { st with
          accessCodes := st.accessCodes.filter (fun c => c.code != ac.code),
          tokens := ⟨freshToken st.nonce, freshRefreshToken st.nonce, app.id,
            ac.userEmail⟩ :: st.tokens,
          nonce := st.nonce + 1 }) := by
    simp [tokenExchange, hfind1, hfindapp, hcond, hof]
  refine ⟨by rw [hres], ?_⟩
  rw [hres]
  have hfind2 :
      (st.accessCodes.filter (fun c => c.code != ac.code)).find?
        (fun c => c.code == ac.code) = none := by
    rw [List.find?_eq_none]
    intro x hx
    rw [List.mem_filter] at hx
    simpa using hx.2
  simp [tokenExchange, hfind2, emptyResp]

/-- Claim C6: a successful local login or registration carrying a challenge
answers 302 with a redirect location carrying an `access_code` value; that
code is exchangeable (200) at `POST /auth/token` with the issuing app's
credentials and the same challenge, and is single-use: a second exchange of
the same code answers 401. -/
theorem auth_redirect_access_code (st : ServerState) (app : App)
    (challenge email password : String) (u : UserRec) (body : RegisterBody)
    (pw : String)
    (happ : app ∈ st.apps) (happs : (st.apps.map App.id).Nodup)
    (hu : u ∈ st.users) (hue : u.email = email) (hup : u.password = password)
    (husers : (st.users.map UserRec.email).Nodup)
    (hbp : body.password = some pw) :
    ((login st app.id challenge email password).1.status = 302 ∧
      ∃ code : String,
        (login st app.id challenge email password).1.location =
          some ("?access_code=" ++ code) ∧
        (tokenExchange (login st app.id challenge email password).2
          ⟨some app.id, some app.secret, some code, none, some challenge⟩).1.status = 200 ∧
        (tokenExchange
          (tokenExchange (login st app.id challenge email password).2
            ⟨some app.id, some app.secret, some code, none, some challenge⟩).2
          ⟨some app.id, some app.secret, some code, none, some challenge⟩).1.status = 401) ∧
    ((register st app.id challenge body).1.status = 302 ∧
      ∃ code : String,
        (register st app.id challenge body).1.location =
          some ("?access_code=" ++ code) ∧
        (tokenExchange (register st app.id challenge body).2
          ⟨some app.id, some app.secret, some code, none, some challenge⟩).1.status = 200 ∧
        (tokenExchange
          (tokenExchange (register st app.id challenge body).2
            ⟨some app.id, some app.secret, some code, none, some challenge⟩).2
          ⟨some app.id, some app.secret, some code, none, some challenge⟩).1.status = 401) := by
  have hfindu : st.users.find? (fun v => v.email == email) = some u := by
    have := find?_beq_eq_of_mem UserRec.email st.users husers u hu
    simpa [hue] using this
  have hpw : (u.password == password) = true := by
    simp [hup]
  have hlog : login st app.id challenge email password =
      (⟨302, some ("?access_code=" ++ freshCode st.nonce), none, none⟩,
       { st with
          accessCodes := ⟨freshCode st.nonce, app.id, challenge, email⟩ :: st.accessCodes,
          nonce := st.nonce + 1 }) := by
    simp [login, hfindu, hpw]
  have hreg : register st app.id challenge body =
      (⟨302, some ("?access_code=" ++ freshCode st.nonce), none, none⟩,
       { st with
          users := ⟨body.email, pw⟩ :: st.users,
          accessCodes := ⟨freshCode st.nonce, app.id, challenge, body.email⟩ :: st.accessCodes,
          nonce := st.nonce + 1 }) := by
    simp [register, hbp]
  constructor
  · refine ⟨by rw [hlog], freshCode st.nonce, by rw [hlog], ?_⟩
    rw [hlog]
    exact tokenExchange_fresh_code _ app
      ⟨freshCode st.nonce, app.id, challenge, email⟩ st.accessCodes rfl happ happs rfl
  · refine ⟨by rw [hreg], freshCode st.nonce, by rw [hreg], ?_⟩
    rw [hreg]
    exact tokenExchange_fresh_code _ app
      ⟨freshCode st.nonce, app.id, challenge, body.email⟩ st.accessCodes rfl happ happs rfl

/-- Witness for C6: in the demo state, logging in with the correct
password redirects with status 302. -/
theorem auth_redirect_access_code_witness :
    (login demoState ("sdm") "random" "spam@speckle.systems"
      "roll saving throws").1.status = 302 :=
  (auth_redirect_access_code demoState ⟨"sdm", "sdm"⟩ "random"
      "spam@speckle.systems" "roll saving throws"
      ⟨"spam@speckle.systems", "roll saving throws"⟩ ⟨"a@b", "ab", some ("pw")⟩ "pw"
      (by decide) (by decide) (by decide) rfl rfl (by decide) rfl).1.1

end SpeckleAuth
